import Mathlib

/-!
# Verification of the Tower of Hanoi cloud solver

Shallow embedding of the solver core in `src/functions/src/index.ts`
(`HanoiCloudSolver`): the data model (`HanoiMove`, `HanoiSolution`, the
three-rod simulation state), the recursive generator `solveHanoi`, the
structural validator `validateSolution` / `isValidMove`, and the entry
point `generateSolution`.

Conventions of the embedding:
* JavaScript arrays used as stacks (`push`/`pop` at the end) become Lean
  lists whose *last* element is the top of the stack.
* The `number` arguments that the program only ever uses at integer
  values are embedded as `Int`; the entry-point range guard is also
  restated over `ℚ` (`diskCountRejected`) to analyse non-integer inputs,
  on which the JavaScript comparisons behave exactly like the rational
  ones.
* `throw` in `generateSolution` becomes `Except.error`.
* In-place mutation of the rod array and the move array becomes explicit
  state passing: `solveHanoi` takes and returns the pair of rod state and
  accumulated move list.
-/

/-- A single move record (interface `HanoiMove`, index.ts lines 23-29).
`from` is a Lean keyword, so the field is named `fromRod`; `to` is kept
as `toRod` for symmetry. -/
structure HanoiMove where
  id : String
  fromRod : String
  toRod : String
  disk : Int
  description : String
deriving DecidableEq, Repr

/-- The aggregate result (interface `HanoiSolution`, index.ts lines 31-37). -/
structure HanoiSolution where
  numberOfDisks : Int
  moves : List HanoiMove
  totalMoves : Nat
  source : String
  isValid : Bool
deriving DecidableEq, Repr

/-- The rod state `number[][]` of index.ts line 65: exactly three stacks of
disk sizes.  Bottom of each stack is the head of the list, the top is the
last element (JavaScript `push`/`pop` work at the end). -/
structure Rods where
  r0 : List Int
  r1 : List Int
  r2 : List Int
deriving DecidableEq, Repr

/-- `rods[i]` for an integer index.  Only ever used after the bounds check
of index.ts lines 106-107, so only the values 0, 1, 2 matter. -/
def Rods.get (r : Rods) (i : Int) : List Int :=
  if i = 0 then r.r0 else if i = 1 then r.r1 else r.r2

/-- `rods[i] = l` for an integer index. -/
def Rods.set (r : Rods) (i : Int) (l : List Int) : Rods :=
  if i = 0 then { r with r0 := l }
  else if i = 1 then { r with r1 := l }
  else { r with r2 := l }

/-- `const rodNames = ["A", "B", "C"]` (index.ts line 102). -/
def rodNames : List String := ["A", "B", "C"]

/-- `rodNames[i]` as used at index.ts lines 118-119 and 139-140; only ever
evaluated at indices 0, 1, 2 (guarded at lines 106-107). -/
def rodName (i : Int) : String :=
  if i = 0 then "A" else if i = 1 then "B" else "C"

/-- Builds the move record pushed at index.ts lines 116-124 / 137-145:
`id` is `move-${moves.length + 1}`, and the description interpolates the
disk and the rod names. -/
def mkMove (len : Nat) (frm : Int) (dest : Int) (disk : Int) : HanoiMove :=
  { id := "move-" ++ toString (len + 1)
    fromRod := rodName frm
    toRod := rodName dest
    disk := disk
    description :=
      "Take disk " ++ toString disk ++ " from rod " ++ rodName frm ++
        " to rod " ++ rodName dest }

/-- The recursive solver `HanoiCloudSolver.solveHanoi` (index.ts lines
94-149).  The mutated `rods`/`moves` arrays are threaded as an explicit
state pair.  `pop()` on the stack-as-list is `getLast?`/`dropLast`;
`pop()` returning `undefined` on an empty array and the preceding
`length === 0` check collapse into the single `getLast? = none` case. -/
def solveHanoi (n : Int) (frm : Int) (dest : Int) (aux : Int)
    (rods : Rods) (moves : List HanoiMove) : Rods × List HanoiMove :=
  -- Safety checks (lines 105-108)
  if _h1 : n ≤ 0 then (rods, moves)
  else if _h2 : frm < 0 ∨ frm > 2 ∨ dest < 0 ∨ dest > 2 ∨ aux < 0 ∨ aux > 2 then
    (rods, moves)
  else if _h3 : frm = dest ∨ frm = aux ∨ dest = aux then (rods, moves)
  -- Base case (lines 111-126)
  else if _h4 : n = 1 then
    match (rods.get frm).getLast? with
    | none => (rods, moves)
    | some disk =>
      let rods1 := rods.set frm (rods.get frm).dropLast
      let rods2 := rods1.set dest (rods1.get dest ++ [disk])
      (rods2, moves ++ [mkMove moves.length frm dest disk])
  else
    -- Phase 1 (line 130)
    let p1 := solveHanoi (n - 1) frm aux dest rods moves
    -- Phase 2 (lines 133-145)
    match (p1.1.get frm).getLast? with
    | none => p1
    | some disk =>
      let rods1 := p1.1.set frm (p1.1.get frm).dropLast
      let rods2 := rods1.set dest (rods1.get dest ++ [disk])
      let moves2 := p1.2 ++ [mkMove p1.2.length frm dest disk]
      -- Phase 3 (line 148)
      solveHanoi (n - 1) aux dest frm rods2 moves2
termination_by n.toNat
decreasing_by all_goals omega

/-- `HanoiCloudSolver.isValidMove` (index.ts lines 171-177). -/
def isValidMove (move : HanoiMove) : Bool :=
  rodNames.contains move.fromRod &&
  rodNames.contains move.toRod &&
  move.fromRod != move.toRod &&
  decide (move.disk > 0)

/-- `HanoiCloudSolver.validateSolution` (index.ts lines 157-164).
`Math.pow(2, numberOfDisks) - 1` is exact integer arithmetic at every
call site (the disk count has already been validated to lie in `[1, 8]`),
so the disk count is embedded as `Nat`. -/
def validateSolution (moves : List HanoiMove) (numberOfDisks : Nat) : Bool :=
  let expectedMoves := 2 ^ numberOfDisks - 1
  let hasCorrectMoveCount := moves.length == expectedMoves
  let allMovesValid := moves.all isValidMove
  hasCorrectMoveCount && allMovesValid

/-- The initialization loop of index.ts lines 68-70: pushes
`numberOfDisks, numberOfDisks - 1, ..., 1` onto rod 0, producing the
stack `[n, n-1, ..., 1]` (largest at the bottom, smallest on top). -/
def descStack : Nat → List Int
  | 0 => []
  | k + 1 => ((k : Int) + 1) :: descStack k

/-- `HanoiCloudSolver.generateSolution` (index.ts lines 58-83).
The `throw` of line 61 becomes `Except.error`. -/
def generateSolution (numberOfDisks : Int) : Except String HanoiSolution :=
  if numberOfDisks < 1 ∨ numberOfDisks > 8 then
    Except.error "Number of disks must be between 1 and 8."
  else
    let init : Rods := ⟨descStack numberOfDisks.toNat, [], []⟩
    let res := solveHanoi numberOfDisks 0 2 1 init []
    Except.ok
      { numberOfDisks := numberOfDisks
        moves := res.2
        totalMoves := res.2.length
        source := "cloud_generated"
        isValid := validateSolution res.2 numberOfDisks.toNat }

/-- The range guard of `generateSolution` (index.ts line 60), restated
over exact rationals.  For every input the caller can actually supply
(a JavaScript `number` whose value and `value - 1` computations stay in
the exactly-representable range, as all inputs in `[0, 9]` do), the two
comparisons `numberOfDisks < 1` and `numberOfDisks > 8` coincide with
the rational ones, so this captures the guard's behaviour on
non-integer inputs such as `5/2`. -/
def diskCountRejected (x : ℚ) : Bool :=
  decide (x < 1) || decide (x > 8)

/-! ## Replay semantics

An independent interpreter for a produced move sequence, used to state the
physical-correctness claims: it maps each rod label back to its index,
pops the top disk of the source rod (failing on an empty rod), and pushes
it onto the destination rod (failing if that would place a larger disk on
a smaller one). -/

/-- Index of a rod label, inverse of `rodName` on `{A, B, C}`. -/
def labelIdx (s : String) : Option Int :=
  if s = "A" then some 0 else if s = "B" then some 1
  else if s = "C" then some 2 else none

/-- Replays one move against a rod state: fails (`none`) if a label is not
a rod, if the source rod is empty, or if the popped disk would land on a
strictly smaller top disk. -/
def applyMove (st : Rods) (m : HanoiMove) : Option Rods :=
  match labelIdx m.fromRod with
  | none => none
  | some i =>
    match labelIdx m.toRod with
    | none => none
    | some j =>
      match (st.get i).getLast? with
      | none => none
      | some d =>
        match ((st.set i (st.get i).dropLast).get j).getLast? with
        | none =>
          some ((st.set i (st.get i).dropLast).set j
            ((st.set i (st.get i).dropLast).get j ++ [d]))
        | some t =>
          if d < t then
            some ((st.set i (st.get i).dropLast).set j
              ((st.set i (st.get i).dropLast).get j ++ [d]))
          else none

/-- Replays a whole move sequence, threading the rod state. -/
def replay (st : Rods) : List HanoiMove → Option Rods
  | [] => some st
  | m :: ms => (applyMove st m).bind (fun st2 => replay st2 ms)

/-- All intermediate states of a replay, starting state included. -/
def replayStates (st : Rods) : List HanoiMove → Option (List Rods)
  | [] => some [st]
  | m :: ms =>
    (applyMove st m).bind (fun st2 => (replayStates st2 ms).map (st :: ·))

/-- A stack is admissible when it is strictly decreasing from bottom to
top, i.e. the smallest disk is on top. -/
def stackOK (l : List Int) : Bool :=
  decide (List.Chain' (fun a b => b < a) l)

/-- The state invariant of an `n`-disk simulation: every stack sorted with
the smallest disk on top, and the disks across the three rods are exactly
`{1 .. n}` as a multiset. -/
def rodsInv (n : Nat) (st : Rods) : Bool :=
  stackOK st.r0 && stackOK st.r1 && stackOK st.r2 &&
  decide ((st.r0 ++ st.r1 ++ st.r2).Perm (descStack n))

/-- Every intermediate state of the replay of `ms` from `st` exists (no
illegal move) and satisfies the `n`-disk invariant. -/
def allStatesOK (n : Nat) (st : Rods) (ms : List HanoiMove) : Bool :=
  match replayStates st ms with
  | none => false
  | some states => states.all (rodsInv n)

/-! ## Fuel-indexed evaluator

`solveHanoi` recurses on the integer `n` and is defined by well-founded
recursion, which the kernel cannot evaluate.  `solveHanoiFuel` is the same
algorithm with an explicit structural fuel parameter counting the allowed
recursion depth; `solveHanoiFuel_eq` proves that fuel `n.toNat` always
suffices — which is exactly the termination argument of the source: each
recursive call strictly decreases `n`, and recursion stops at `n ≤ 0`. -/

/-- Fuel-indexed variant of `solveHanoi`: identical branching, but each
recursive step consumes one unit of fuel and the computation answers
`none` if fuel runs out before the recursion bottoms out. -/
def solveHanoiFuel (fuel : Nat) (n : Int) (frm : Int) (dest : Int)
    (aux : Int) (rods : Rods) (moves : List HanoiMove) :
    Option (Rods × List HanoiMove) :=
  if n ≤ 0 then some (rods, moves)
  else if frm < 0 ∨ frm > 2 ∨ dest < 0 ∨ dest > 2 ∨ aux < 0 ∨ aux > 2 then
    some (rods, moves)
  else if frm = dest ∨ frm = aux ∨ dest = aux then some (rods, moves)
  else if n = 1 then
    match (rods.get frm).getLast? with
    | none => some (rods, moves)
    | some disk =>
      let rods1 := rods.set frm (rods.get frm).dropLast
      let rods2 := rods1.set dest (rods1.get dest ++ [disk])
      some (rods2, moves ++ [mkMove moves.length frm dest disk])
  else
    match fuel with
    | 0 => none
    | fuel + 1 =>
      match solveHanoiFuel fuel (n - 1) frm aux dest rods moves with
      | none => none
      | some p1 =>
        match (p1.1.get frm).getLast? with
        | none => some p1
        | some disk =>
          let rods1 := p1.1.set frm (p1.1.get frm).dropLast
          let rods2 := rods1.set dest (rods1.get dest ++ [disk])
          let moves2 := p1.2 ++ [mkMove p1.2.length frm dest disk]
          solveHanoiFuel fuel (n - 1) aux dest frm rods2 moves2

/-- Any fuel of at least `n.toNat` makes the fuelled evaluator total and
equal to `solveHanoi`: the recursion depth of the solver is bounded by
the disk count, because each recursive call strictly decreases `n` and
recursion stops at `n ≤ 0`. -/
theorem solveHanoiFuel_eq (fuel : Nat) :
    ∀ (n frm dest aux : Int) (rods : Rods) (moves : List HanoiMove),
    n.toNat ≤ fuel →
    solveHanoiFuel fuel n frm dest aux rods moves
      = some (solveHanoi n frm dest aux rods moves) := by
  induction fuel with
  | zero =>
    intro n frm dest aux rods moves h
    have h0 : n ≤ 0 := by omega
    rw [solveHanoiFuel, solveHanoi]
    simp [h0]
  | succ f ih =>
    intro n frm dest aux rods moves h
    rw [solveHanoiFuel, solveHanoi]
    by_cases h1 : n ≤ 0
    · simp [h1]
    by_cases h2 : frm < 0 ∨ frm > 2 ∨ dest < 0 ∨ dest > 2 ∨ aux < 0 ∨ aux > 2
    · simp [h1, h2]
    by_cases h3 : frm = dest ∨ frm = aux ∨ dest = aux
    · simp [h1, h2, h3]
    by_cases h4 : n = 1
    · simp only [if_neg h1, if_neg h2, if_neg h3, if_pos h4, dif_neg h1,
        dif_neg h2, dif_neg h3, dif_pos h4]
      cases (rods.get frm).getLast? <;> rfl
    · simp only [if_neg h1, if_neg h2, if_neg h3, if_neg h4, dif_neg h1,
        dif_neg h2, dif_neg h3, dif_neg h4]
      have hrec : (n - 1).toNat ≤ f := by omega
      rw [ih (n - 1) frm aux dest rods moves hrec]
      generalize solveHanoi (n - 1) frm aux dest rods moves = p1
      obtain ⟨r1, m1⟩ := p1
      dsimp only
      cases (r1.get frm).getLast? with
      | none => rfl
      | some disk => exact ih (n - 1) aux dest frm _ _ (by omega)

/-- Computable mirror of `generateSolution`, evaluating the solver through
`solveHanoiFuel` with fuel `x.toNat` (always sufficient, by
`solveHanoiFuel_eq`).  Proved equal to `generateSolution` in
`generateSolution_eq`; used only so that concrete instances can be
checked by kernel evaluation. -/
def generateSolutionF (x : Int) : Except String HanoiSolution :=
  if x < 1 ∨ x > 8 then
    Except.error "Number of disks must be between 1 and 8."
  else
    match solveHanoiFuel x.toNat x 0 2 1 ⟨descStack x.toNat, [], []⟩ [] with
    | none => Except.error "fuel exhausted"
    | some res =>
      Except.ok
        { numberOfDisks := x
          moves := res.2
          totalMoves := res.2.length
          source := "cloud_generated"
          isValid := validateSolution res.2 x.toNat }

/-- `generateSolution` and its computable mirror agree everywhere. -/
theorem generateSolution_eq (x : Int) :
    generateSolution x = generateSolutionF x := by
  unfold generateSolution generateSolutionF
  by_cases hx : x < 1 ∨ x > 8
  · simp [hx]
  · simp only [if_neg hx]
    rw [solveHanoiFuel_eq x.toNat x 0 2 1 ⟨descStack x.toNat, [], []⟩ []
      (le_refl _)]

/-- The Solution record inside a successful `generateSolutionF`,
defaulting to a dummy record on failure; used to name the existential
witnesses of the concrete scenarios. -/
def solutionForF (n : Int) : HanoiSolution :=
  match generateSolutionF n with
  | Except.ok s => s
  | Except.error _ => ⟨0, [], 0, "", false⟩

/-! ## Basic lemmas about the embedded data structures -/

theorem Rods.get_set_self (r : Rods) (i : Int) (l : List Int) :
    (r.set i l).get i = l := by
  unfold Rods.get Rods.set
  split_ifs <;> rfl

theorem Rods.get_set_ne (r : Rods) {i j : Int} (l : List Int)
    (hi : i = 0 ∨ i = 1 ∨ i = 2) (hj : j = 0 ∨ j = 1 ∨ j = 2) (hij : i ≠ j) :
    (r.set i l).get j = r.get j := by
  rcases hi with rfl | rfl | rfl <;> rcases hj with rfl | rfl | rfl <;>
    first
    | exact absurd rfl hij
    | rfl

theorem Rods.eq_of_get {r r' : Rods} (h0 : r.get 0 = r'.get 0)
    (h1 : r.get 1 = r'.get 1) (h2 : r.get 2 = r'.get 2) : r = r' := by
  cases r
  cases r'
  simp only [Rods.get] at h0 h1 h2
  norm_num at h0 h1 h2
  simp [h0, h1, h2]

theorem labelIdx_rodName {i : Int} (hi : i = 0 ∨ i = 1 ∨ i = 2) :
    labelIdx (rodName i) = some i := by
  rcases hi with rfl | rfl | rfl <;> rfl

theorem rodName_mem {i : Int} (hi : i = 0 ∨ i = 1 ∨ i = 2) :
    rodNames.contains (rodName i) = true := by
  rcases hi with rfl | rfl | rfl <;> rfl

theorem rodName_ne {i j : Int} (hi : i = 0 ∨ i = 1 ∨ i = 2)
    (hj : j = 0 ∨ j = 1 ∨ j = 2) (hij : i ≠ j) : rodName i ≠ rodName j := by
  rcases hi with rfl | rfl | rfl <;> rcases hj with rfl | rfl | rfl <;>
    first
    | exact absurd rfl hij
    | decide

theorem isValidMove_mkMove {i j d : Int} (len : Nat)
    (hi : i = 0 ∨ i = 1 ∨ i = 2) (hj : j = 0 ∨ j = 1 ∨ j = 2)
    (hij : i ≠ j) (hd : 0 < d) : isValidMove (mkMove len i j d) = true := by
  unfold isValidMove mkMove
  simp only [Bool.and_eq_true, bne_iff_ne, ne_eq, decide_eq_true_eq]
  refine ⟨⟨⟨rodName_mem hi, rodName_mem hj⟩, rodName_ne hi hj hij⟩, hd⟩

theorem descStack_length (n : Nat) : (descStack n).length = n := by
  induction n with
  | zero => rfl
  | succ k ih => simp [descStack, ih]

theorem mem_descStack {n : Nat} {x : Int} :
    x ∈ descStack n ↔ 1 ≤ x ∧ x ≤ n := by
  induction n with
  | zero => simp [descStack]; omega
  | succ k ih =>
    simp only [descStack, List.mem_cons, ih]
    push_cast
    omega

theorem descStack_pairwise (n : Nat) :
    (descStack n).Pairwise (fun a c => c < a) := by
  induction n with
  | zero => simp [descStack]
  | succ k ih =>
    refine List.Pairwise.cons ?_ ih
    intro c hc
    have := mem_descStack.mp hc
    omega

theorem replay_append (a c : List HanoiMove) :
    ∀ st, replay st (a ++ c)
      = (replay st a).bind (fun st2 => replay st2 c) := by
  induction a with
  | nil => intro st; simp [replay]
  | cons m ms ih =>
    intro st
    simp only [List.cons_append, replay]
    cases applyMove st m with
    | none => rfl
    | some st2 => simp [ih]

/-- Effect of one pop-push step of the solver (the `n == 1` base case and
the phase-2 move share this shape): rod `i` holding `b ++ [d]` loses its
top disk `d`, rod `j` gains it on top, other rods are untouched, and the
emitted move replays correctly (`applyMove`) provided every disk on rod
`j` is larger than `d`. -/
theorem step_spec (len : Nat) {i j : Int} (R : Rods) (b : List Int)
    (d : Int)
    (hi : i = 0 ∨ i = 1 ∨ i = 2) (hj : j = 0 ∨ j = 1 ∨ j = 2) (hij : i ≠ j)
    (hRi : R.get i = b ++ [d]) (htop : ∀ x ∈ R.get j, d < x) :
    ∃ R2 : Rods,
      R2 = (R.set i (R.get i).dropLast).set j
        ((R.set i (R.get i).dropLast).get j ++ [d]) ∧
      (R.get i).getLast? = some d ∧
      R2.get i = b ∧
      R2.get j = R.get j ++ [d] ∧
      (∀ l, (l = 0 ∨ l = 1 ∨ l = 2) → l ≠ i → l ≠ j → R2.get l = R.get l) ∧
      applyMove R (mkMove len i j d) = some R2 := by
  have hlast : (R.get i).getLast? = some d := by
    rw [hRi]; exact List.getLast?_concat b
  have hdrop : (R.get i).dropLast = b := by
    rw [hRi]; exact List.dropLast_concat
  have hgetj : (R.set i (R.get i).dropLast).get j = R.get j :=
    Rods.get_set_ne R _ hi hj hij
  refine ⟨_, rfl, hlast, ?_, ?_, ?_, ?_⟩
  · rw [Rods.get_set_ne _ _ hj hi (Ne.symm hij), Rods.get_set_self, hdrop]
  · rw [Rods.get_set_self, hgetj]
  · intro l hl hli hlj
    rw [Rods.get_set_ne _ _ hj hl (Ne.symm hlj),
      Rods.get_set_ne _ _ hi hl (Ne.symm hli)]
  · unfold applyMove mkMove
    simp only [labelIdx_rodName hi, labelIdx_rodName hj]
    rw [hlast]
    simp only [hgetj]
    cases hgj : (R.get j).getLast? with
    | none => simp [hgetj]
    | some t =>
      have ht : d < t := htop t (List.mem_of_getLast?_eq_some hgj)
      simp [ht, hgetj]

/-- Main correctness of the recursive solver, by induction on the disk
count: if rod `i` holds `b ++ s` with `s` the strictly descending pile of
the top `n` disks, every disk of `s` smaller than everything in `b` and
on rods `j` and `k`, then `solveHanoi n i j k` transfers `s` wholesale
onto rod `j`, leaves rod `k` unchanged, appends exactly `2 ^ n - 1`
structurally valid moves, and the emitted moves replay legally
(`replay`) from `R` to the final state. -/
theorem solveHanoi_spec :
    ∀ (nn : Nat) (n i j k : Int) (R : Rods) (M : List HanoiMove)
      (b s : List Int),
    n.toNat = nn → 1 ≤ n →
    (i = 0 ∨ i = 1 ∨ i = 2) → (j = 0 ∨ j = 1 ∨ j = 2) →
    (k = 0 ∨ k = 1 ∨ k = 2) → i ≠ j → i ≠ k → j ≠ k →
    R.get i = b ++ s → s.length = nn →
    s.Pairwise (fun a c => c < a) →
    (∀ a ∈ s, 0 < a) →
    (∀ a ∈ s, ∀ x ∈ b, a < x) →
    (∀ a ∈ s, ∀ x ∈ R.get j, a < x) →
    (∀ a ∈ s, ∀ x ∈ R.get k, a < x) →
    ∃ (R' : Rods) (ms : List HanoiMove),
      solveHanoi n i j k R M = (R', M ++ ms) ∧
      ms.length = 2 ^ nn - 1 ∧
      (∀ m ∈ ms, isValidMove m = true) ∧
      R'.get i = b ∧
      R'.get j = R.get j ++ s ∧
      R'.get k = R.get k ∧
      replay R ms = some R' := by
  intro nn
  induction nn with
  | zero =>
    intro n i j k R M b s htn h1 _ _ _ _ _ _ _ _ _ _ _ _ _
    exact absurd htn (by omega)
  | succ snn ih =>
    intro n i j k R M b s htn h1 hi hj hk hij hik hjk hRi hslen hsort hpos
      hsb hsj hsk
    have hn0 : ¬ n ≤ 0 := by omega
    have hib : 0 ≤ i ∧ i ≤ 2 := by rcases hi with rfl | rfl | rfl <;> norm_num
    have hjb : 0 ≤ j ∧ j ≤ 2 := by rcases hj with rfl | rfl | rfl <;> norm_num
    have hkb : 0 ≤ k ∧ k ≤ 2 := by rcases hk with rfl | rfl | rfl <;> norm_num
    have hbound : ¬ (i < 0 ∨ i > 2 ∨ j < 0 ∨ j > 2 ∨ k < 0 ∨ k > 2) := by
      omega
    have hdist : ¬ (i = j ∨ i = k ∨ j = k) := by
      push_neg
      exact ⟨hij, hik, hjk⟩
    cases s with
    | nil => exact absurd hslen (by simp)
    | cons d s' =>
      have hd0 : 0 < d := hpos d (List.mem_cons_self d s')
      have hds' : ∀ c ∈ s', c < d := (List.pairwise_cons.mp hsort).1
      by_cases hone : n = 1
      · -- base case: a single disk moves from i to j
        have hsnn0 : snn = 0 := by omega
        subst hsnn0
        have hs'nil : s' = [] := by
          simpa using hslen
        subst hs'nil
        have hRi' : R.get i = b ++ [d] := hRi
        have htop : ∀ x ∈ R.get j, d < x := fun x hx =>
          hsj d (List.mem_cons_self d []) x hx
        obtain ⟨R2, hR2eq, hlast, h2i, h2j, hother, happ⟩ :=
          step_spec M.length R b d hi hj hij hRi' htop
        refine ⟨R2, [mkMove M.length i j d], ?_, by simp, ?_, h2i, h2j,
          hother k hk (Ne.symm hik) (Ne.symm hjk), ?_⟩
        · rw [solveHanoi]
          simp only [dif_neg hn0, dif_neg hbound, dif_neg hdist,
            dif_pos hone, hlast, ← hR2eq]
        · intro m hm
          rw [List.mem_singleton] at hm
          subst hm
          exact isValidMove_mkMove M.length hi hj hij hd0
        · simp [replay, happ]
      · -- recursive case
        have hsnn1 : 1 ≤ snn := by omega
        have htn' : (n - 1).toNat = snn := by omega
        have h1' : 1 ≤ n - 1 := by omega
        have hs'len : s'.length = snn := by simpa using hslen
        have hRi1 : R.get i = (b ++ [d]) ++ s' := by rw [hRi]; simp
        have hsort' : s'.Pairwise (fun a c => c < a) :=
          (List.pairwise_cons.mp hsort).2
        have hpos' : ∀ a ∈ s', 0 < a := fun a ha =>
          hpos a (List.mem_cons_of_mem d ha)
        have hsb1 : ∀ a ∈ s', ∀ x ∈ b ++ [d], a < x := by
          intro a ha x hx
          rcases List.mem_append.mp hx with hx | hx
          · exact hsb a (List.mem_cons_of_mem d ha) x hx
          · rw [List.mem_singleton] at hx
            subst hx
            exact hds' a ha
        have hsj' : ∀ a ∈ s', ∀ x ∈ R.get j, a < x := fun a ha x hx =>
          hsj a (List.mem_cons_of_mem d ha) x hx
        have hsk' : ∀ a ∈ s', ∀ x ∈ R.get k, a < x := fun a ha x hx =>
          hsk a (List.mem_cons_of_mem d ha) x hx
        -- phase 1: move the top snn disks from i to k
        obtain ⟨R1, ms₁, heq1, hlen1, hval1, hR1i, hR1k, hR1j, hrep1⟩ :=
          ih (n - 1) i k j R M (b ++ [d]) s' htn' h1' hi hk hj hik hij
            (Ne.symm hjk) hRi1 hs'len hsort' hpos' hsb1 hsk' hsj'
        -- phase 2: move disk d from i to j
        have htop2 : ∀ x ∈ R1.get j, d < x := by
          rw [hR1j]
          exact fun x hx => hsj d (List.mem_cons_self d s') x hx
        obtain ⟨R2, hR2eq, hlast2, h2i, h2j, hother2, happ2⟩ :=
          step_spec (M ++ ms₁).length R1 b d hi hj hij hR1i htop2
        have h2k : R2.get k = R.get k ++ s' := by
          rw [hother2 k hk (Ne.symm hik) (Ne.symm hjk), hR1k]
        have h2j' : R2.get j = R.get j ++ [d] := by rw [h2j, hR1j]
        -- phase 3: move the top snn disks from k to j
        have hsb3 : ∀ a ∈ s', ∀ x ∈ R.get k, a < x := hsk'
        have hsj3 : ∀ a ∈ s', ∀ x ∈ R2.get j, a < x := by
          intro a ha x hx
          rw [h2j'] at hx
          rcases List.mem_append.mp hx with hx | hx
          · exact hsj a (List.mem_cons_of_mem d ha) x hx
          · rw [List.mem_singleton] at hx
            subst hx
            exact hds' a ha
        have hsk3 : ∀ a ∈ s', ∀ x ∈ R2.get i, a < x := by
          intro a ha x hx
          rw [h2i] at hx
          exact hsb a (List.mem_cons_of_mem d ha) x hx
        obtain ⟨R3, ms₃, heq3, hlen3, hval3, hR3k, hR3j, hR3i, hrep3⟩ :=
          ih (n - 1) k j i R2 ((M ++ ms₁) ++ [mkMove (M ++ ms₁).length i j d])
            (R.get k) s' htn' h1' hk hj hi (Ne.symm hjk) (Ne.symm hik)
            (Ne.symm hij) h2k hs'len hsort' hpos' hsb3 hsj3 hsk3
        refine ⟨R3, ms₁ ++ (mkMove (M ++ ms₁).length i j d :: ms₃),
          ?_, ?_, ?_, ?_, ?_, ?_, ?_⟩
        · rw [solveHanoi]
          simp only [dif_neg hn0, dif_neg hbound, dif_neg hdist,
            dif_neg hone, heq1, hlast2, ← hR2eq]
          rw [heq3]
          simp
        · have hp : 1 ≤ 2 ^ snn := Nat.one_le_two_pow
          have hps : 2 ^ (snn + 1) = 2 ^ snn * 2 := pow_succ 2 snn
          simp only [List.length_append, List.length_cons, hlen1, hlen3]
          omega
        · intro m hm
          rcases List.mem_append.mp hm with hm | hm
          · exact hval1 m hm
          · rcases List.mem_cons.mp hm with hm | hm
            · subst hm
              exact isValidMove_mkMove (M ++ ms₁).length hi hj hij hd0
            · exact hval3 m hm
        · rw [hR3i, h2i]
        · rw [hR3j, h2j']
          simp
        · rw [hR3k]
        · rw [replay_append, hrep1]
          simp only [Option.some_bind]
          rw [replay, happ2]
          simpa using hrep3

/-! ## Preservation of the rod-state invariant along a replay -/

theorem labelIdx_valid {s : String} {i : Int} (h : labelIdx s = some i) :
    i = 0 ∨ i = 1 ∨ i = 2 := by
  unfold labelIdx at h
  split_ifs at h <;> simp_all

theorem chain'_of_concat {l : List Int} {d : Int}
    (h : List.Chain' (fun a c => c < a) (l ++ [d])) :
    List.Chain' (fun a c => c < a) l :=
  (List.chain'_append.mp h).1

theorem chain'_push {l : List Int} {d : Int}
    (h : List.Chain' (fun a c => c < a) l)
    (htop : ∀ t, l.getLast? = some t → d < t) :
    List.Chain' (fun a c => c < a) (l ++ [d]) := by
  rw [List.chain'_append]
  refine ⟨h, List.chain'_singleton d, ?_⟩
  intro x hx y hy
  simp only [List.head?_cons, Option.mem_def, Option.some.injEq] at hy
  subst hy
  exact htop x hx

theorem descStack_chain' (n : Nat) :
    List.Chain' (fun a c => c < a) (descStack n) := by
  induction n with
  | zero => exact List.chain'_nil
  | succ k ih =>
    rw [descStack, List.chain'_cons']
    refine ⟨?_, ih⟩
    intro y hy
    have hym := mem_descStack.mp (List.mem_of_mem_head? hy)
    omega

theorem rodsInv_iff (nd : Nat) (st : Rods) :
    rodsInv nd st = true ↔
      (List.Chain' (fun a c => c < a) st.r0 ∧
       List.Chain' (fun a c => c < a) st.r1 ∧
       List.Chain' (fun a c => c < a) st.r2 ∧
       (st.r0 ++ st.r1 ++ st.r2).Perm (descStack nd)) := by
  simp [rodsInv, stackOK, and_assoc]

theorem rodsInv_init (nd : Nat) :
    rodsInv nd ⟨descStack nd, [], []⟩ = true := by
  refine (rodsInv_iff nd _).mpr
    ⟨descStack_chain' nd, List.chain'_nil, List.chain'_nil, by simp⟩

/-- A legal pop-push (top disk `d` of rod `i` onto rod `j`, each disk on
`j` larger than `d`) preserves the sortedness-and-multiset invariant. -/
theorem move_preserves_inv (nd : Nat) (st : Rods) {i j d : Int}
    (hi : i = 0 ∨ i = 1 ∨ i = 2) (hj : j = 0 ∨ j = 1 ∨ j = 2)
    (hlast : (st.get i).getLast? = some d)
    (htop : ∀ t, ((st.set i ((st.get i).dropLast)).get j).getLast? = some t
      → d < t)
    (hinv : rodsInv nd st = true) :
    rodsInv nd ((st.set i ((st.get i).dropLast)).set j
      (((st.set i ((st.get i).dropLast)).get j) ++ [d])) = true := by
  have hsplit : st.get i = (st.get i).dropLast ++ [d] :=
    (List.dropLast_append_getLast? d hlast).symm
  obtain ⟨hc0, hc1, hc2, hperm⟩ := (rodsInv_iff nd st).mp hinv
  by_cases hij : i = j
  · subst hij
    have hall : ∀ l, l = 0 ∨ l = 1 ∨ l = 2 →
        ((st.set i ((st.get i).dropLast)).set i
          (((st.set i ((st.get i).dropLast)).get i) ++ [d])).get l
          = st.get l := by
      intro l hl
      by_cases hli : l = i
      · subst hli
        rw [Rods.get_set_self, Rods.get_set_self, ← hsplit]
      · rw [Rods.get_set_ne _ _ hi hl (fun h => hli h.symm),
          Rods.get_set_ne _ _ hi hl (fun h => hli h.symm)]
    rw [Rods.eq_of_get (hall 0 (by norm_num)) (hall 1 (by norm_num))
      (hall 2 (by norm_num))]
    exact hinv
  · rcases hi with rfl | rfl | rfl <;> rcases hj with rfl | rfl | rfl
    · exact absurd rfl hij
    · -- moving the top disk from rod 0 to rod 1
      have hb : st.r0 = st.r0.dropLast ++ [d] := hsplit
      have htop' : ∀ t, st.r1.getLast? = some t → d < t := fun t ht => htop t ht
      have hstate : ((st.set 0 ((st.get 0).dropLast)).set 1
          (((st.set 0 ((st.get 0).dropLast)).get 1) ++ [d]))
          = ⟨st.r0.dropLast, st.r1 ++ [d], st.r2⟩ := by
        norm_num [Rods.set, Rods.get]
      rw [hstate]
      refine (rodsInv_iff nd _).mpr ⟨?_, ?_, ?_, ?_⟩
      · exact chain'_of_concat (hb ▸ hc0)
      · exact chain'_push hc1 htop'
      · exact hc2
      · refine List.Perm.trans ?_ hperm
        refine List.perm_iff_count.mpr fun a => ?_
        conv_rhs => rw [hb]
        simp only [List.count_append]
        omega
    · -- moving the top disk from rod 0 to rod 2
      have hb : st.r0 = st.r0.dropLast ++ [d] := hsplit
      have htop' : ∀ t, st.r2.getLast? = some t → d < t := fun t ht => htop t ht
      have hstate : ((st.set 0 ((st.get 0).dropLast)).set 2
          (((st.set 0 ((st.get 0).dropLast)).get 2) ++ [d]))
          = ⟨st.r0.dropLast, st.r1, st.r2 ++ [d]⟩ := by
        norm_num [Rods.set, Rods.get]
      rw [hstate]
      refine (rodsInv_iff nd _).mpr ⟨?_, ?_, ?_, ?_⟩
      · exact chain'_of_concat (hb ▸ hc0)
      · exact hc1
      · exact chain'_push hc2 htop'
      · refine List.Perm.trans ?_ hperm
        refine List.perm_iff_count.mpr fun a => ?_
        conv_rhs => rw [hb]
        simp only [List.count_append]
        omega
    · -- moving the top disk from rod 1 to rod 0
      have hb : st.r1 = st.r1.dropLast ++ [d] := hsplit
      have htop' : ∀ t, st.r0.getLast? = some t → d < t := fun t ht => htop t ht
      have hstate : ((st.set 1 ((st.get 1).dropLast)).set 0
          (((st.set 1 ((st.get 1).dropLast)).get 0) ++ [d]))
          = ⟨st.r0 ++ [d], st.r1.dropLast, st.r2⟩ := by
        norm_num [Rods.set, Rods.get]
      rw [hstate]
      refine (rodsInv_iff nd _).mpr ⟨?_, ?_, ?_, ?_⟩
      · exact chain'_push hc0 htop'
      · exact chain'_of_concat (hb ▸ hc1)
      · exact hc2
      · refine List.Perm.trans ?_ hperm
        refine List.perm_iff_count.mpr fun a => ?_
        conv_rhs => rw [hb]
        simp only [List.count_append]
        omega
    · exact absurd rfl hij
    · -- moving the top disk from rod 1 to rod 2
      have hb : st.r1 = st.r1.dropLast ++ [d] := hsplit
      have htop' : ∀ t, st.r2.getLast? = some t → d < t := fun t ht => htop t ht
      have hstate : ((st.set 1 ((st.get 1).dropLast)).set 2
          (((st.set 1 ((st.get 1).dropLast)).get 2) ++ [d]))
          = ⟨st.r0, st.r1.dropLast, st.r2 ++ [d]⟩ := by
        norm_num [Rods.set, Rods.get]
      rw [hstate]
      refine (rodsInv_iff nd _).mpr ⟨?_, ?_, ?_, ?_⟩
      · exact hc0
      · exact chain'_of_concat (hb ▸ hc1)
      · exact chain'_push hc2 htop'
      · refine List.Perm.trans ?_ hperm
        refine List.perm_iff_count.mpr fun a => ?_
        conv_rhs => rw [hb]
        simp only [List.count_append]
        omega
    · -- moving the top disk from rod 2 to rod 0
      have hb : st.r2 = st.r2.dropLast ++ [d] := hsplit
      have htop' : ∀ t, st.r0.getLast? = some t → d < t := fun t ht => htop t ht
      have hstate : ((st.set 2 ((st.get 2).dropLast)).set 0
          (((st.set 2 ((st.get 2).dropLast)).get 0) ++ [d]))
          = ⟨st.r0 ++ [d], st.r1, st.r2.dropLast⟩ := by
        norm_num [Rods.set, Rods.get]
      rw [hstate]
      refine (rodsInv_iff nd _).mpr ⟨?_, ?_, ?_, ?_⟩
      · exact chain'_push hc0 htop'
      · exact hc1
      · exact chain'_of_concat (hb ▸ hc2)
      · refine List.Perm.trans ?_ hperm
        refine List.perm_iff_count.mpr fun a => ?_
        conv_rhs => rw [hb]
        simp only [List.count_append]
        omega
    · -- moving the top disk from rod 2 to rod 1
      have hb : st.r2 = st.r2.dropLast ++ [d] := hsplit
      have htop' : ∀ t, st.r1.getLast? = some t → d < t := fun t ht => htop t ht
      have hstate : ((st.set 2 ((st.get 2).dropLast)).set 1
          (((st.set 2 ((st.get 2).dropLast)).get 1) ++ [d]))
          = ⟨st.r0, st.r1 ++ [d], st.r2.dropLast⟩ := by
        norm_num [Rods.set, Rods.get]
      rw [hstate]
      refine (rodsInv_iff nd _).mpr ⟨?_, ?_, ?_, ?_⟩
      · exact hc0
      · exact chain'_push hc1 htop'
      · exact chain'_of_concat (hb ▸ hc2)
      · refine List.Perm.trans ?_ hperm
        refine List.perm_iff_count.mpr fun a => ?_
        conv_rhs => rw [hb]
        simp only [List.count_append]
        omega
    · exact absurd rfl hij

/-- Replaying any legal move preserves the invariant. -/
theorem applyMove_rodsInv (nd : Nat) (st st2 : Rods) (m : HanoiMove)
    (happ : applyMove st m = some st2) (hinv : rodsInv nd st = true) :
    rodsInv nd st2 = true := by
  unfold applyMove at happ
  split at happ
  · exact absurd happ (by simp)
  rename_i i hfi
  split at happ
  · exact absurd happ (by simp)
  rename_i j hfj
  split at happ
  · exact absurd happ (by simp)
  rename_i d hlast
  split at happ
  · rename_i hjt
    rw [Option.some_inj] at happ
    subst happ
    refine move_preserves_inv nd st (labelIdx_valid hfi) (labelIdx_valid hfj)
      hlast ?_ hinv
    intro t ht
    rw [hjt] at ht
    exact absurd ht (by simp)
  · rename_i t hjt
    split at happ
    · rename_i hdt
      rw [Option.some_inj] at happ
      subst happ
      refine move_preserves_inv nd st (labelIdx_valid hfi)
        (labelIdx_valid hfj) hlast ?_ hinv
      intro u hu
      rw [hjt] at hu
      simp only [Option.some.injEq] at hu
      subst hu
      exact hdt
    · exact absurd happ (by simp)

/-- Along a successful replay from an invariant-satisfying state, every
intermediate state (initial state included) exists and satisfies the
invariant. -/
theorem replayStates_all_inv (nd : Nat) :
    ∀ (ms : List HanoiMove) (st st' : Rods),
    rodsInv nd st = true → replay st ms = some st' →
    ∃ sts, replayStates st ms = some sts ∧ sts.all (rodsInv nd) = true := by
  intro ms
  induction ms with
  | nil =>
    intro st st' hinv _
    exact ⟨[st], rfl, by simp [hinv]⟩
  | cons m ms ih =>
    intro st st' hinv hrep
    rw [replay] at hrep
    cases happ : applyMove st m with
    | none => rw [happ] at hrep; exact absurd hrep (by simp)
    | some st2 =>
      rw [happ] at hrep
      simp only [Option.some_bind] at hrep
      obtain ⟨sts, hsts, hall⟩ :=
        ih st2 st' (applyMove_rodsInv nd st st2 m happ hinv) hrep
      refine ⟨st :: sts, ?_, ?_⟩
      · rw [replayStates, happ]
        simp [hsts]
      · simp [hinv, hall]

/-- `allStatesOK` holds whenever the replay succeeds from an
invariant-satisfying state. -/
theorem allStatesOK_of_replay {nd : Nat} {st st' : Rods}
    {ms : List HanoiMove} (hinv : rodsInv nd st = true)
    (hrep : replay st ms = some st') : allStatesOK nd st ms = true := by
  obtain ⟨sts, hsts, hall⟩ := replayStates_all_inv nd ms st st' hinv hrep
  unfold allStatesOK
  rw [hsts]
  exact hall

/-! ## The solver applied to the initial state of `generateSolution` -/

/-- Everything `generateSolution` guarantees for an in-range disk count:
it succeeds, the move list has exactly `2 ^ n - 1` structurally valid
moves, the internal simulation ends with all disks on rod C (index 2),
and replaying the emitted moves from the initial state is legal and
reproduces that final state. -/
theorem generateSolution_spec (x : Int) (h1 : 1 ≤ x) (h8 : x ≤ 8) :
    ∃ (R' : Rods) (ms : List HanoiMove),
      solveHanoi x 0 2 1 ⟨descStack x.toNat, [], []⟩ [] = (R', ms) ∧
      generateSolution x = Except.ok
        { numberOfDisks := x
          moves := ms
          totalMoves := ms.length
          source := "cloud_generated"
          isValid := validateSolution ms x.toNat } ∧
      ms.length = 2 ^ x.toNat - 1 ∧
      (∀ m ∈ ms, isValidMove m = true) ∧
      R' = ⟨[], [], descStack x.toNat⟩ ∧
      replay ⟨descStack x.toNat, [], []⟩ ms = some R' := by
  have hget0 : (⟨descStack x.toNat, [], []⟩ : Rods).get 0
      = [] ++ descStack x.toNat := by
    simp [Rods.get]
  obtain ⟨R', ms, heq, hlen, hval, hgi, hgj, hgk, hrep⟩ :=
    solveHanoi_spec x.toNat x 0 2 1 ⟨descStack x.toNat, [], []⟩ [] []
      (descStack x.toNat) rfl h1 (by norm_num) (by norm_num) (by norm_num)
      (by norm_num) (by norm_num) (by norm_num) hget0 (descStack_length _)
      (descStack_pairwise _) (fun a ha => (mem_descStack.mp ha).1)
      (by simp) (by simp [Rods.get]) (by simp [Rods.get])
  rw [List.nil_append] at heq
  have hx : ¬ (x < 1 ∨ x > 8) := by omega
  have hfin : R' = ⟨[], [], descStack x.toNat⟩ := by
    refine Rods.eq_of_get ?_ ?_ ?_
    · rw [hgi]; simp [Rods.get]
    · rw [hgk]; simp [Rods.get]
    · rw [hgj]; simp [Rods.get]
  refine ⟨R', ms, heq, ?_, hlen, hval, hfin, hrep⟩
  unfold generateSolution
  rw [if_neg hx]
  simp only [heq]

/-! ## The claims -/

/-- C1: For every integer `n` with `1 ≤ n ≤ 8`, `generateSolution n`
returns a Solution whose moves list has exactly `2 ^ n - 1` entries and
whose `totalMoves` field equals the length of that moves list. -/
theorem C1_moves_length (n : Int) (h1 : 1 ≤ n) (h8 : n ≤ 8) :
    ∃ s : HanoiSolution, generateSolution n = Except.ok s ∧
      s.moves.length = 2 ^ n.toNat - 1 ∧
      s.totalMoves = s.moves.length := by
  obtain ⟨R', ms, _, hgen, hlen, _, _, _⟩ := generateSolution_spec n h1 h8
  exact ⟨_, hgen, hlen, rfl⟩

/-- Witness for C1 at `n = 3`. -/
theorem C1_moves_length_witness :
    (1 : Int) ≤ 3 ∧ (3 : Int) ≤ 8 ∧
      (∃ s : HanoiSolution, generateSolution 3 = Except.ok s ∧
        s.moves.length = 2 ^ (3 : Int).toNat - 1 ∧
        s.totalMoves = s.moves.length) :=
  ⟨by norm_num, by norm_num, C1_moves_length 3 (by norm_num) (by norm_num)⟩

/-- C2: For every integer `n` with `1 ≤ n ≤ 8`, replaying the move
sequence returned by `generateSolution n` in order against three rods
(rod 0 loaded with disks `n..1` bottom-to-top, rods 1 and 2 empty)
succeeds (`replay` answers `some`, i.e. it never pops from an empty rod
and never places a larger disk on a smaller one) and ends with all `n`
disks on rod C (index 2) in bottom-to-top order `n..1`. -/
theorem C2_replay_correct (n : Int) (h1 : 1 ≤ n) (h8 : n ≤ 8) :
    ∃ s : HanoiSolution, generateSolution n = Except.ok s ∧
      replay ⟨descStack n.toNat, [], []⟩ s.moves
        = some ⟨[], [], descStack n.toNat⟩ := by
  obtain ⟨R', ms, _, hgen, _, _, hfin, hrep⟩ := generateSolution_spec n h1 h8
  refine ⟨_, hgen, ?_⟩
  rw [← hfin]
  exact hrep

/-- Witness for C2 at `n = 3`. -/
theorem C2_replay_correct_witness :
    (1 : Int) ≤ 3 ∧ (3 : Int) ≤ 8 ∧
      (∃ s : HanoiSolution, generateSolution 3 = Except.ok s ∧
        replay ⟨descStack (3 : Int).toNat, [], []⟩ s.moves
          = some ⟨[], [], descStack (3 : Int).toNat⟩) :=
  ⟨by norm_num, by norm_num, C2_replay_correct 3 (by norm_num) (by norm_num)⟩

/-- C3: For every integer `n` with `1 ≤ n ≤ 8`, the `isValid` field of
the Solution returned by `generateSolution n` is `true`. -/
theorem C3_isValid (n : Int) (h1 : 1 ≤ n) (h8 : n ≤ 8) :
    ∃ s : HanoiSolution, generateSolution n = Except.ok s ∧
      s.isValid = true := by
  obtain ⟨R', ms, _, hgen, hlen, hval, _, _⟩ := generateSolution_spec n h1 h8
  refine ⟨_, hgen, ?_⟩
  show validateSolution ms n.toNat = true
  unfold validateSolution
  simp only [Bool.and_eq_true, beq_iff_eq, List.all_eq_true]
  exact ⟨hlen, hval⟩

/-- Witness for C3 at `n = 4`. -/
theorem C3_isValid_witness :
    (1 : Int) ≤ 4 ∧ (4 : Int) ≤ 8 ∧
      (∃ s : HanoiSolution, generateSolution 4 = Except.ok s ∧
        s.isValid = true) :=
  ⟨by norm_num, by norm_num, C3_isValid 4 (by norm_num) (by norm_num)⟩

/-- C4: For every move sequence `ms` and every disk count `n`,
`validateSolution ms n` returns `true` iff `ms` has exactly `2 ^ n - 1`
entries and every move has source and destination labels among the three
rod labels, source different from destination, and strictly positive
disk size.  (The embedding is purely functional, so the validator cannot
mutate its input.) -/
theorem C4_validate_iff (ms : List HanoiMove) (n : Nat) :
    validateSolution ms n = true ↔
      (ms.length = 2 ^ n - 1 ∧
        ∀ m ∈ ms, m.fromRod ∈ rodNames ∧ m.toRod ∈ rodNames ∧
          m.fromRod ≠ m.toRod ∧ 0 < m.disk) := by
  unfold validateSolution isValidMove
  simp only [Bool.and_eq_true, beq_iff_eq, List.all_eq_true, bne_iff_ne,
    ne_eq, decide_eq_true_eq, List.contains, List.elem_eq_mem, and_assoc,
    gt_iff_lt]

/-- Witness for C4: the empty sequence validates for `n = 0`. -/
theorem C4_validate_iff_witness :
    validateSolution [] 0 = true :=
  (C4_validate_iff [] 0).mpr ⟨by simp, by simp⟩

/-- C5 counterexample: `5/2` is a non-integer numeric input (its reduced
denominator is 2, so it equals no integer) that lies inside `[1, 8]`, and the range guard of
`generateSolution` — the only check performed before the simulation —
does not reject it; so it is false that `generateSolution` fails on
every non-integer input. -/
theorem C5_counterexample :
    (¬ ∃ k : Int, ((5 : ℚ) / 2) = (k : ℚ)) ∧
      diskCountRejected ((5 : ℚ) / 2) = false := by
  constructor
  · rintro ⟨k, hk⟩
    have h5 : (5 : ℚ) = 2 * (k : ℚ) := by
      field_simp at hk
      linarith
    have h5' : (5 : Int) = 2 * k := by exact_mod_cast h5
    omega
  · unfold diskCountRejected
    norm_num

/-- C5 (amended): `generateSolution x` fails with the `InvalidDiskCount`
error iff `x < 1` or `x > 8` — there is no integrality check; the same
holds for the guard evaluated over exact rationals
(`diskCountRejected`).  The error is the guard itself, raised before any
simulation, and on failure only `Except.error` is returned — no partial
Solution. -/
theorem C5_error_iff :
    (∀ x : Int,
      generateSolution x
          = Except.error "Number of disks must be between 1 and 8."
        ↔ (x < 1 ∨ x > 8)) ∧
    (∀ x : ℚ, diskCountRejected x = true ↔ (x < 1 ∨ x > 8)) := by
  constructor
  · intro x
    unfold generateSolution
    split_ifs with hx
    · simp [hx]
    · simp [hx]
  · intro x
    unfold diskCountRejected
    simp

/-- Witness for C5 (amended) at `x = 0` and `x = 5/2`. -/
theorem C5_error_iff_witness :
    generateSolution 0
        = Except.error "Number of disks must be between 1 and 8." ∧
      diskCountRejected ((5 : ℚ) / 2) ≠ true :=
  ⟨(C5_error_iff.1 0).mpr (by norm_num),
    fun h => by
      have := (C5_error_iff.2 ((5 : ℚ) / 2)).mp h
      norm_num at this⟩

/-- Helper for C6: whenever the rod the solver is told to move from is
empty, `solveHanoi` leaves the rod state and the move list completely
unchanged, at every recursion depth (bounded here by the fuel `nn`). -/
theorem solveHanoi_empty_source (nn : Nat) :
    ∀ (n frm dest aux : Int) (rods : Rods) (moves : List HanoiMove),
    n.toNat ≤ nn → rods.get frm = [] →
    solveHanoi n frm dest aux rods moves = (rods, moves) := by
  induction nn with
  | zero =>
    intro n frm dest aux rods moves hn _
    rw [solveHanoi]
    simp [show n ≤ 0 by omega]
  | succ k ih =>
    intro n frm dest aux rods moves hn hemp
    rw [solveHanoi]
    by_cases h1 : n ≤ 0
    · simp [h1]
    by_cases h2 : frm < 0 ∨ frm > 2 ∨ dest < 0 ∨ dest > 2 ∨ aux < 0 ∨ aux > 2
    · simp [h1, h2]
    by_cases h3 : frm = dest ∨ frm = aux ∨ dest = aux
    · simp [h1, h2, h3]
    by_cases h4 : n = 1
    · simp [h1, h2, h3, h4, hemp]
    · simp only [dif_neg h1, dif_neg h2, dif_neg h3, dif_neg h4]
      rw [ih (n - 1) frm aux dest rods moves (by omega) hemp]
      simp [hemp]

/-- C6 counterexample: at the very point the claim addresses (the
`n == 1` base case with an empty source rod), the solver does not fail
with any error — it returns normally, silently leaving the rod state and
move list unchanged (the embedding of `solveHanoi` is a total function
into plain pairs precisely because the source has no `throw` on this
path, only an early `return`). -/
theorem C6_counterexample :
    solveHanoi 1 0 2 1 ⟨[], [], []⟩ [] = ((⟨[], [], []⟩ : Rods), []) := by
  have h := solveHanoiFuel_eq 1 1 0 2 1 ⟨[], [], []⟩ [] (by norm_num)
  have h2 : solveHanoiFuel 1 1 0 2 1 ⟨[], [], []⟩ []
      = some ((⟨[], [], []⟩ : Rods), []) := by decide
  rw [h] at h2
  exact Option.some_inj.mp h2

/-- C6 (amended): when a move would have to be emitted from an empty
source rod (base case or phase 2), the solver does not fail fast with an
internal consistency error; instead it returns immediately, leaving the
rod state and the accumulated move list unchanged and emitting no
(malformed or other) move — at any argument values. -/
theorem C6_empty_source_silent (n frm dest aux : Int) (rods : Rods)
    (moves : List HanoiMove) (hemp : rods.get frm = []) :
    solveHanoi n frm dest aux rods moves = (rods, moves) :=
  solveHanoi_empty_source n.toNat n frm dest aux rods moves (le_refl _) hemp

/-- Witness for C6 (amended): a five-disk call on an empty source rod. -/
theorem C6_empty_source_silent_witness :
    (⟨[], [], descStack 5⟩ : Rods).get 0 = [] ∧
      solveHanoi 5 0 2 1 ⟨[], [], descStack 5⟩ []
        = ((⟨[], [], descStack 5⟩ : Rods), []) :=
  ⟨rfl, C6_empty_source_silent 5 0 2 1 ⟨[], [], descStack 5⟩ [] rfl⟩

/-- C7: For every integer `n` with `1 ≤ n ≤ 8`, at every intermediate
step of the simulation performed inside `generateSolution n` (the states
traversed when the emitted moves are applied in order to the initial
state, which is exactly how the solver itself mutates its rod array),
each of the three rod stacks is sorted with the smallest disk on top,
and the multiset of disk sizes across the three rods is exactly
`{1 .. n}` — no disk is created, destroyed, or duplicated
(`allStatesOK`); moreover the solver's own final rod state agrees with
the final replayed state (all disks on rod 2). -/
theorem C7_simulation_invariants (n : Int) (h1 : 1 ≤ n) (h8 : n ≤ 8) :
    ∃ s : HanoiSolution, generateSolution n = Except.ok s ∧
      allStatesOK n.toNat ⟨descStack n.toNat, [], []⟩ s.moves = true ∧
      (solveHanoi n 0 2 1 ⟨descStack n.toNat, [], []⟩ []).1
        = ⟨[], [], descStack n.toNat⟩ := by
  obtain ⟨R', ms, heq, hgen, _, _, hfin, hrep⟩ := generateSolution_spec n h1 h8
  refine ⟨_, hgen, ?_, ?_⟩
  · exact allStatesOK_of_replay (rodsInv_init n.toNat) hrep
  · rw [heq]
    exact hfin

/-- Witness for C7 at `n = 5`. -/
theorem C7_simulation_invariants_witness :
    (1 : Int) ≤ 5 ∧ (5 : Int) ≤ 8 ∧
      (∃ s : HanoiSolution, generateSolution 5 = Except.ok s ∧
        allStatesOK (5 : Int).toNat ⟨descStack (5 : Int).toNat, [], []⟩
          s.moves = true ∧
        (solveHanoi 5 0 2 1 ⟨descStack (5 : Int).toNat, [], []⟩ []).1
          = ⟨[], [], descStack (5 : Int).toNat⟩) :=
  ⟨by norm_num, by norm_num,
    C7_simulation_invariants 5 (by norm_num) (by norm_num)⟩

/-- C9: a call to `solveHanoi` whose three rod role indices are not
pairwise distinct or fall outside `[0, 2]` returns immediately, leaving
both the rod state and the accumulated move list unchanged — for every
`n`, every rod state and every move list. -/
theorem C9_defensive_checks (n frm dest aux : Int) (rods : Rods)
    (moves : List HanoiMove)
    (h : (frm = dest ∨ frm = aux ∨ dest = aux) ∨
      (frm < 0 ∨ frm > 2 ∨ dest < 0 ∨ dest > 2 ∨ aux < 0 ∨ aux > 2)) :
    solveHanoi n frm dest aux rods moves = (rods, moves) := by
  rw [solveHanoi]
  by_cases h1 : n ≤ 0
  · simp [h1]
  rcases h with h | h
  · by_cases h2 : frm < 0 ∨ frm > 2 ∨ dest < 0 ∨ dest > 2 ∨ aux < 0 ∨ aux > 2
    · simp [h1, h2]
    · simp [h1, h2, h]
  · simp [h1, h]

/-- Witness for C9: equal source and destination indices. -/
theorem C9_defensive_checks_witness :
    (((0 : Int) = 0 ∨ (0 : Int) = 1 ∨ (0 : Int) = 1) ∨
      ((0 : Int) < 0 ∨ (0 : Int) > 2 ∨ (0 : Int) < 0 ∨ (0 : Int) > 2 ∨
        (1 : Int) < 0 ∨ (1 : Int) > 2)) ∧
    solveHanoi 4 0 0 1 ⟨descStack 4, [], []⟩ []
      = ((⟨descStack 4, [], []⟩ : Rods), []) :=
  ⟨by norm_num,
    C9_defensive_checks 4 0 0 1 ⟨descStack 4, [], []⟩ [] (by norm_num)⟩

/-- C10: `solveHanoi` terminates on every combination of arguments: the
fuelled evaluator `solveHanoiFuel`, which consumes one fuel unit per
recursive step and fails when fuel runs out, never fails and agrees with
`solveHanoi` once the fuel reaches `n.toNat` — each recursive call
strictly decreases `n` and recursion stops at `n ≤ 0`.  Consequently
`generateSolution` is total (returns a Solution) on every input passing
its range check. -/
theorem C10_terminates :
    (∀ (fuel : Nat) (n frm dest aux : Int) (rods : Rods)
      (moves : List HanoiMove), n.toNat ≤ fuel →
      solveHanoiFuel fuel n frm dest aux rods moves
        = some (solveHanoi n frm dest aux rods moves)) ∧
    (∀ x : Int, 1 ≤ x → x ≤ 8 →
      ∃ s : HanoiSolution, generateSolution x = Except.ok s) := by
  refine ⟨solveHanoiFuel_eq, ?_⟩
  intro x h1 h8
  obtain ⟨R', ms, _, hgen, _⟩ := generateSolution_spec x h1 h8
  exact ⟨_, hgen⟩

/-- Witness for C10 at small concrete arguments. -/
theorem C10_terminates_witness :
    ((1 : Int).toNat ≤ 1 ∧
      solveHanoiFuel 1 1 0 2 1 ⟨[], [], []⟩ []
        = some (solveHanoi 1 0 2 1 ⟨[], [], []⟩ [])) ∧
    ((1 : Int) ≤ 2 ∧ (2 : Int) ≤ 8 ∧
      ∃ s : HanoiSolution, generateSolution 2 = Except.ok s) :=
  ⟨⟨by norm_num, C10_terminates.1 1 1 0 2 1 ⟨[], [], []⟩ [] (by norm_num)⟩,
    by norm_num, by norm_num, C10_terminates.2 2 (by norm_num) (by norm_num)⟩

/-- C8 counterexample: the final (seventh) move of `generateSolution 3`
does not place disk 3 on rod C — its recorded destination-and-disk pair
is `("C", 1)`, not `("C", 3)`: the classic recursion finishes by moving
the smallest disk, and disk 3 reaches rod C already at the fourth
move. -/
theorem C8_counterexample :
    ∃ s : HanoiSolution, generateSolution 3 = Except.ok s ∧
      ¬ (s.moves.getLast?.map (fun m => (m.toRod, m.disk))
        = some ("C", 3)) :=
  ⟨solutionForF 3, by rw [generateSolution_eq]; rfl, by decide⟩

/-- C8 (amended): concrete scenarios.  `generateSolution 1` yields the
single move of disk 1 from rod A to rod C; `generateSolution 2` yields
exactly disk 1 A→B, disk 2 A→C, disk 1 B→C; `generateSolution 3` has
exactly 7 moves, its final move places disk **1** on rod C, and the full
sequence passes the structural validator. -/
theorem C8_concrete_scenarios :
    (∃ s : HanoiSolution, generateSolution 1 = Except.ok s ∧
      s.moves.map (fun m => (m.fromRod, m.toRod, m.disk))
        = [("A", "C", 1)]) ∧
    (∃ s : HanoiSolution, generateSolution 2 = Except.ok s ∧
      s.moves.map (fun m => (m.fromRod, m.toRod, m.disk))
        = [("A", "B", 1), ("A", "C", 2), ("B", "C", 1)]) ∧
    (∃ s : HanoiSolution, generateSolution 3 = Except.ok s ∧
      s.moves.length = 7 ∧
      s.moves.getLast?.map (fun m => (m.toRod, m.disk)) = some ("C", 1) ∧
      validateSolution s.moves 3 = true) := by
  refine ⟨⟨solutionForF 1, ?_, ?_⟩, ⟨solutionForF 2, ?_, ?_⟩,
    ⟨solutionForF 3, ?_, ?_, ?_, ?_⟩⟩ <;>
    first
      | (rw [generateSolution_eq]; rfl)
      | decide
